import Mathlib

set_option autoImplicit false

/-!
Verification development for the Klar repository: a shallow embedding of
the front-end storage/CSV utilities (from `js/store.js`, `js/utils/csv.js`,
`js/utils/helpers.js`) and of the batch enrichment runner specified in the
repository's design notes (the runner script `scripts/run_enrichment.py` is
referenced by `manual.md` but is not part of the source tree, so it is
modelled from the specification).
-/

namespace Klar

/-- A JavaScript value stored in a record field. `none` models both `null`
and `undefined`; `some s` models a string value (the records handled by the
app are CSV-derived, so all present values are strings; JS booleans and
numbers written by the code are embedded via their string rendering). -/
abbrev JSValue := Option String

/-- A JavaScript object used as a data record: an ordered association list
of field name to value. A missing key reads as `undefined` (`none`). -/
abbrev JSRecord := List (String × JSValue)

/-- Property read `record[k]`: the value at the first matching key, or
`none` (undefined) when the key is absent. -/
def getField (r : JSRecord) (k : String) : JSValue :=
  match r with
  | [] => none
  | (k', v) :: rest => if k' == k then v else getField rest k

/-- Property write `record[k] = v`: overwrite the first matching key, or
append the key when absent. -/
def setField (r : JSRecord) (k : String) (v : JSValue) : JSRecord :=
  match r with
  | [] => [(k, v)]
  | (k', v') :: rest => if k' == k then (k, v) :: rest else (k', v') :: setField rest k v

/-- JS truthiness test used as `!record['poc.id']`: `undefined`, `null` and
the empty string are falsy. -/
def falsy (v : JSValue) : Bool :=
  match v with
  | none => true
  | some s => s.isEmpty

/-- Keys `Object.keys(record)`: the field names in insertion order. -/
def objectKeys (r : JSRecord) : List String :=
  r.map (fun p => p.1)

namespace CSV

/-- The cell conversion inside `CSV.toCSV` (`js/utils/csv.js`, lines 52–68):
`null`/`undefined` become the empty string; a string containing a comma,
double quote or newline is wrapped in double quotes with each embedded
double quote doubled; other strings pass through unchanged. -/
def escapeValue (v : JSValue) : String :=
  match v with
  | none => ""
  | some value =>
    if value.contains ',' || value.contains '"' || value.contains '\n' then
      "\"" ++ value.replace "\"" "\"\"" ++ "\""
    else
      value

/-- Export `CSV.toCSV(records, fields)` (`js/utils/csv.js`, lines 39–74).
`records = none` models passing `null`/`undefined`; `fields = none` models
the omitted argument, in which case the columns are the first record's keys
that do not start with an underscore. Builds one header row (the columns
joined by commas) followed by one row per record, all joined by newlines. -/
def toCSV (records : Option (List JSRecord)) (fields : Option (List String)) : String :=
  match records with
  | none => ""
  | some [] => ""
  | some (first :: rest) =>
    let columns := match fields with
      | some fs => fs
      | none => (objectKeys first).filter (fun k => !(k.startsWith "_"))
    let header := String.intercalate "," columns
    let rows := header :: (first :: rest).map (fun record =>
      String.intercalate "," (columns.map (fun col => escapeValue (getField record col))))
    String.intercalate "\n" rows

end CSV

/-- Cell quoting as the specification sentence describes it: a null or
undefined value becomes the empty string, and any value containing a comma,
double quote, or newline is wrapped in double quotes with each embedded
double quote doubled. Stated separately from `CSV.escapeValue` so the code
can be compared against the claim's wording. -/
def specQuoteCell (v : JSValue) : String :=
  match v with
  | none => ""
  | some s =>
    if s.contains ',' || s.contains '"' || s.contains '\n' then
      String.append (String.append "\"" (s.replace "\"" "\"\"")) "\""
    else
      s

/-- CSV output as the specification sentence describes it: one header row
(the columns joined by commas) followed by one row per record in input
order, each row the record's cells (quoted per `specQuoteCell`) joined by
commas, rows joined by newlines. -/
def specToCSV (records : List JSRecord) (columns : List String) : String :=
  String.intercalate "\n"
    (String.intercalate "," columns ::
      records.map (fun r =>
        String.intercalate "," (columns.map (fun c => specQuoteCell (getField r c)))))

namespace Store

/-- One entry of the recent-history list: `{ id, ts }` (`js/store.js`). -/
structure RecentEntry where
  id : String
  ts : Nat
deriving Repr, DecidableEq

/-- The constant `MAX_RECENT` (`js/store.js`, line 136). -/
def MAX_RECENT : Nat := 50

/-- History update `Store.addToRecent(pocId)` (`js/store.js`, lines 135–151) acting on the
stored recent list: remove any entry with the same id, unshift a fresh
entry (`now` models `Date.now()`), and truncate to `MAX_RECENT`. -/
def addToRecent (pocId : String) (now : Nat) (recent : List RecentEntry) : List RecentEntry :=
  let filtered := recent.filter (fun item => item.id != pocId)
  let grown := RecentEntry.mk pocId now :: filtered
  if grown.length > MAX_RECENT then grown.take MAX_RECENT else grown

/-- A sequence of `Store.addToRecent` calls, oldest first, applied to a
stored recent list. Each call is `(pocId, Date.now())`. -/
def applyRecent (calls : List (String × Nat)) (recent : List RecentEntry) : List RecentEntry :=
  calls.foldl (fun acc c => addToRecent c.1 c.2 acc) recent

/-- Star toggle `Store.toggleStarred(pocId)` (`js/store.js`, lines 103–115) acting on
the stored starred list. `indexOf === -1` is membership failure; `splice`
removes the first occurrence; `push` appends. Returns the function's return
value (`true` when the id was just added) with the updated list. -/
def toggleStarred (pocId : String) (starred : List String) : Bool × List String :=
  if pocId ∈ starred then
    (false, starred.erase pocId)
  else
    (true, starred ++ [pocId])

end Store

/-- JavaScript `str.substring(a, b)`: the characters at indices `[a, b)`. -/
def jsSubstring (s : String) (a b : Nat) : String :=
  ((s.toList.drop a).take (b - a)).asString

/-- Id generation `generateId()` (`js/utils/helpers.js`, lines 85–87):
`Math.random().toString(36).substring(2, 10)`. The argument models the
base-36 string rendering of the `Math.random()` draw (e.g. `"0.abc123xy"`),
so the function keeps the eight characters after the `"0."` prefix. -/
def generateId (mathRandomBase36 : String) : String :=
  jsSubstring mathRandomBase36 2 10

namespace Store

/-- Record creation `Store.addRecord(record)` (`js/store.js`, lines 220–239), restricted to
its effect on the record object: assign `'u_' + <random 8 chars>` to
`poc.id` when falsy, `'uf_' + <random 8 chars>` to `fund.id` when falsy,
then mark `_isUserAdded = true` and `_addedAt = Date.now()` (boolean and
number embedded as their string renderings). `rand1`/`rand2` model the two
`Math.random().toString(36)` draws and `now` models `Date.now()`. -/
def addRecord (record : JSRecord) (rand1 rand2 : String) (now : Nat) : JSRecord :=
  let r1 :=
    if falsy (getField record "poc.id") then
      setField record "poc.id" (some (String.append "u_" (generateId rand1)))
    else record
  let r2 :=
    if falsy (getField r1 "fund.id") then
      setField r1 "fund.id" (some (String.append "uf_" (generateId rand2)))
    else r1
  setField (setField r2 "_isUserAdded" (some "true")) "_addedAt" (some (toString now))

end Store

/-! ## The batch enrichment runner, modelled from the specification

The runner (`scripts/run_enrichment.py`) is invoked by `manual.md` but its
source is not part of the tree, so the components below are built from the
specification's §3–§5 descriptions. -/

namespace Runner

/-- Modelled from the spec: a record identity — "a stable, deterministic
key derived from a record's content, used for checkpoint bookkeeping". -/
abbrev Identity := String

/-- Modelled from the spec: StageMeta confidence `enum{high,medium,low}`. -/
inductive Confidence where
  | high
  | medium
  | low
deriving Repr, DecidableEq

/-- Numeric rank of a confidence level, so that "confidence ≥ confidence"
comparisons in the merge rule can be stated. -/
def Confidence.rank : Confidence → Nat
  | .high => 2
  | .medium => 1
  | .low => 0

/-- Modelled from the spec: StageMeta quality `enum{excellent,good,limited,poor}`. -/
inductive Quality where
  | excellent
  | good
  | limited
  | poor
deriving Repr, DecidableEq

/-- Modelled from the spec: StageMeta — confidence, fields found, fields
corrected, quality, free-text notes. -/
structure StageMeta where
  confidence : Confidence
  fieldsFound : List String
  fieldsCorrected : List String
  quality : Quality
  notes : String
deriving Repr, DecidableEq

/-- Modelled from the spec: StagePatch — stage name, the field→value
mapping the stage writes, and its StageMeta. -/
structure StagePatch where
  stage : String
  fields : List (String × String)
  meta : StageMeta
deriving Repr, DecidableEq

/-- Modelled from the spec: the Enrichment Backend's typed error set
`{RateLimited, Timeout, InvalidResponse, AuthOrConfigError}`. -/
inductive StageError where
  | RateLimited
  | Timeout
  | InvalidResponse
  | AuthOrConfigError
deriving Repr, DecidableEq

/-- Transient errors are retried; the others are permanent (per stage for
`InvalidResponse`, fatal for the run for `AuthOrConfigError`). -/
def StageError.isTransient : StageError → Bool
  | .RateLimited => true
  | .Timeout => true
  | .InvalidResponse => false
  | .AuthOrConfigError => false

/-- One merged field of the accumulating enriched record: its name, value,
and the confidence of the stage that set it. -/
structure MergedField where
  name : String
  value : String
  conf : Confidence
deriving Repr, DecidableEq

/-- Look up a merged field by name. -/
def lookupMerged (fields : List MergedField) (f : String) : Option MergedField :=
  fields.find? (fun m => m.name == f)

/-- Replace the value and confidence of the (first) merged field named `f`. -/
def overwriteMerged (fields : List MergedField) (f v : String) (c : Confidence) :
    List MergedField :=
  fields.map (fun m => if m.name == f then MergedField.mk f v c else m)

/-- The note recorded when a later stage loses a merge conflict. -/
def conflictNote (stage f : String) : String :=
  String.append (String.append (String.append "conflict: stage " stage) " lost field ") f

/-- The accumulating enriched record: merged fields, conflict notes, the
per-stage metadata collected so far, how many stages succeeded, and the
per-stage permanent failures. -/
structure EnrichAcc where
  fields : List MergedField
  notes : List String
  metas : List (String × StageMeta)
  okCount : Nat
  failed : List (String × StageError)
deriving Repr, DecidableEq

/-- The empty accumulator a record's enrichment starts from. -/
def emptyAcc : EnrichAcc :=
  EnrichAcc.mk [] [] [] 0 []

/-- Modelled from the spec: merging one field of a StagePatch into the
accumulated fields — union when the field is unset; on key collision the
later stage wins only if its confidence is ≥ the earlier value's, otherwise
the earlier value is kept and the conflict is recorded in notes. -/
def mergeField (stage : String) (conf : Confidence) (st : List MergedField × List String)
    (fv : String × String) : List MergedField × List String :=
  match lookupMerged st.1 fv.1 with
  | none => (st.1 ++ [MergedField.mk fv.1 fv.2 conf], st.2)
  | some old =>
    if old.conf.rank ≤ conf.rank then
      (overwriteMerged st.1 fv.1 fv.2 conf, st.2)
    else
      (st.1, st.2 ++ [conflictNote stage fv.1])

/-- Modelled from the spec: merge a whole StagePatch into the accumulator —
each patch field is unioned in via `mergeField`, the stage's meta is
recorded, and the success counter advances. -/
def mergeStage (acc : EnrichAcc) (p : StagePatch) : EnrichAcc :=
  let merged := p.fields.foldl (mergeField p.stage p.meta.confidence) (acc.fields, acc.notes)
  EnrichAcc.mk merged.1 merged.2 (acc.metas ++ [(p.stage, p.meta)]) (acc.okCount + 1) acc.failed

/-- Modelled from the spec: the Outcome union threaded from the Record
Enricher to the Batch Scheduler. `permanentFailure` carries either the
per-stage error list (all requested stages failed) or the fatal
`AuthOrConfigError` marker. -/
inductive Outcome where
  | success (acc : EnrichAcc)
  | transientFailure (e : StageError)
  | allStagesFailed (errors : List (String × StageError))
  | authOrConfigFailure
deriving Repr, DecidableEq

/-- Modelled from the spec: the Record Enricher's stage loop. Stages run
strictly in the configured order; a stage's `InvalidResponse` contributes
nothing and enrichment continues; a transient error fails the whole record
attempt (the caller retries the entire record); `AuthOrConfigError` aborts
the record and is surfaced to halt the batch; at the end the record
succeeds iff at least one stage succeeded. `runStage` is the Stage
Executor applied to this record (stage name → backend result). -/
def enrichGo (runStage : String → Except StageError StagePatch) :
    List String → EnrichAcc → Outcome
  | [], acc =>
    if acc.okCount > 0 then .success acc else .allStagesFailed acc.failed
  | s :: rest, acc =>
    match runStage s with
    | .ok patch => enrichGo runStage rest (mergeStage acc patch)
    | .error e =>
      if e.isTransient then .transientFailure e
      else if e == .AuthOrConfigError then .authOrConfigFailure
      else enrichGo runStage rest
        (EnrichAcc.mk acc.fields acc.notes acc.metas acc.okCount (acc.failed ++ [(s, e)]))

/-- Modelled from the spec: `enrich(record, stages)` — run the ordered
stage list for one record starting from the empty accumulator. -/
def enrich (runStage : String → Except StageError StagePatch) (stages : List String) :
    Outcome :=
  enrichGo runStage stages emptyAcc

/-- Modelled from the spec: CheckpointState — run metadata (start time,
input size), the completed-identity set, the failed list with error
summaries, and the cumulative token counter. -/
structure CheckpointState where
  startTime : Nat
  inputSize : Nat
  completed : List Identity
  failed : List (Identity × String)
  tokens : Nat
deriving Repr, DecidableEq

/-- Modelled from the spec: `is_done(id)` — an identity is done once it has
a terminal outcome recorded: completed, or permanently failed (the
dead-letter list is not retried automatically within or across runs; its
entries are enumerable for manual retry). -/
def is_done (st : CheckpointState) (id : Identity) : Bool :=
  st.completed.contains id || st.failed.any (fun p => p.1 == id)

/-- Modelled from the spec: `mark_success(id, token_count)`. -/
def mark_success (st : CheckpointState) (id : Identity) (tokenCount : Nat) : CheckpointState :=
  CheckpointState.mk st.startTime st.inputSize (st.completed ++ [id]) st.failed
    (st.tokens + tokenCount)

/-- Modelled from the spec: `mark_permanent_failure(id, reason)`. -/
def mark_permanent_failure (st : CheckpointState) (id : Identity) (reason : String) :
    CheckpointState :=
  CheckpointState.mk st.startTime st.inputSize st.completed (st.failed ++ [(id, reason)])
    st.tokens

/-- A mutation of the Checkpoint Store: one of its two marking operations. -/
inductive CkptOp where
  | markSuccess (id : Identity) (tokenCount : Nat)
  | markPermanentFailure (id : Identity) (reason : String)
deriving Repr, DecidableEq

/-- Apply one Checkpoint Store mutation. -/
def applyOp (st : CheckpointState) (op : CkptOp) : CheckpointState :=
  match op with
  | .markSuccess id n => mark_success st id n
  | .markPermanentFailure id r => mark_permanent_failure st id r

/-- Apply a sequence of Checkpoint Store mutations, oldest first. -/
def applyOps (st : CheckpointState) (ops : List CkptOp) : CheckpointState :=
  ops.foldl applyOp st

/-- Modelled from the spec: the terminal outcome the Batch Scheduler
obtains for one dispatched record after retries are exhausted — success
with a token count, or a permanent failure with a reason. -/
inductive RecordResult where
  | ok (tokenCount : Nat)
  | failed (reason : String)
deriving Repr, DecidableEq

/-- Modelled from the spec: the Batch Scheduler's dispatch loop as observed
through the Checkpoint Store — records are pulled from the Record Source in
file order, any identity that `is_done` is skipped with no Enrichment
Backend call, and every other record is enriched (at least one backend call
each, counted here as one dispatch) and marked with its terminal outcome.
`outcome` is the per-identity terminal result of enrichment; the returned
number counts the dispatched records (zero dispatches means zero backend
calls, since calls happen only inside a dispatched enrichment). -/
def dispatch (outcome : Identity → RecordResult) :
    CheckpointState → List Identity → CheckpointState × Nat
  | st, [] => (st, 0)
  | st, id :: rest =>
    if is_done st id then dispatch outcome st rest
    else
      match outcome id with
      | .ok n =>
        let r := dispatch outcome (mark_success st id n) rest
        (r.1, r.2 + 1)
      | .failed reason =>
        let r := dispatch outcome (mark_permanent_failure st id reason) rest
        (r.1, r.2 + 1)

/-- Modelled from the spec: the Run Report — totals (succeeded, permanently
failed, tokens used) and the failed-identity list, derived purely from the
final CheckpointState. Wall-clock duration is real time and is outside this
model. -/
structure RunReport where
  succeeded : Nat
  permanentlyFailed : Nat
  tokensUsed : Nat
  failedList : List (Identity × String)
deriving Repr, DecidableEq

/-- Modelled from the spec: derive the Run Report from a CheckpointState. -/
def runReport (st : CheckpointState) : RunReport :=
  RunReport.mk st.completed.length st.failed.length st.tokens st.failed

/-- Modelled from the spec: the Batch Scheduler's per-record pools — not
yet dispatched, in flight, awaiting a retry after a transient failure,
succeeded, and dead-lettered. The number of concurrently outstanding
Enrichment Backend calls is at most the number of in-flight records, since
each in-flight enrichment runs its stages sequentially. -/
structure SchedState where
  pending : List Identity
  inFlight : List Identity
  retrying : List Identity
  succeeded : List Identity
  deadLetter : List Identity
deriving Repr, DecidableEq

/-- Modelled from the spec: the Scheduler's transitions for worker bound
`W`. A record enters the in-flight pool (from pending, or from retrying
after its backoff delay) only when fewer than `W` records are in flight; an
in-flight record leaves by succeeding, failing transiently (to retrying) or
failing permanently (to the dead-letter list). Backoff timing and jitter
are real time and are not modelled. -/
inductive SchedStep (W : Nat) : SchedState → SchedState → Prop
  | dispatchPending (id : Identity) (rest inFl retry succ dead : List Identity) :
      inFl.length < W →
      SchedStep W (SchedState.mk (id :: rest) inFl retry succ dead)
        (SchedState.mk rest (id :: inFl) retry succ dead)
  | redispatchRetry (id : Identity) (pend inFl retry succ dead : List Identity) :
      inFl.length < W →
      SchedStep W (SchedState.mk pend inFl (id :: retry) succ dead)
        (SchedState.mk pend (id :: inFl) retry succ dead)
  | completeSuccess (id : Identity) (pend inFl retry succ dead : List Identity) :
      id ∈ inFl →
      SchedStep W (SchedState.mk pend inFl retry succ dead)
        (SchedState.mk pend (inFl.erase id) retry (id :: succ) dead)
  | completeTransient (id : Identity) (pend inFl retry succ dead : List Identity) :
      id ∈ inFl →
      SchedStep W (SchedState.mk pend inFl retry succ dead)
        (SchedState.mk pend (inFl.erase id) (id :: retry) succ dead)
  | completePermanent (id : Identity) (pend inFl retry succ dead : List Identity) :
      id ∈ inFl →
      SchedStep W (SchedState.mk pend inFl retry succ dead)
        (SchedState.mk pend (inFl.erase id) retry succ (id :: dead))

/-- A scheduler state reachable from `s` by zero or more transitions. -/
def SchedReachable (W : Nat) : SchedState → SchedState → Prop :=
  Relation.ReflTransGen (SchedStep W)

/-- The contents of a file on disk: a torn partial write, or a complete
valid serialization of a CheckpointState. -/
inductive FileData where
  | torn
  | valid (st : CheckpointState)
deriving Repr, DecidableEq

/-- The durable state `persist` manipulates: the temporary file and the
checkpoint file at the configured path (`none` = the file is absent). -/
structure FS where
  tmpFile : Option FileData
  mainFile : Option FileData
deriving Repr, DecidableEq

/-- Modelled from the spec: every durable state observable while
`persist(state, path)` runs, in order — the state before the call, a crash
mid-way through writing the temp file (torn temp, main untouched), the
temp file fully written and fsynced, and the atomic rename of the temp
file onto the checkpoint path. A crash at any point leaves the file system
in one of these states. -/
def persistCrashStates (st : CheckpointState) (fs : FS) : List FS :=
  [fs,
   FS.mk (some FileData.torn) fs.mainFile,
   FS.mk (some (FileData.valid st)) fs.mainFile,
   FS.mk none (some (FileData.valid st))]

/-- Modelled from the spec: the completed `persist(state, path)` — the
temp file has been renamed onto the checkpoint path. -/
def persist (st : CheckpointState) (_fs : FS) : FS :=
  FS.mk none (some (FileData.valid st))

/-- Modelled from the spec: `load(path)` — read the checkpoint file back
into a CheckpointState, when it holds a valid serialization. -/
def load (fs : FS) : Option CheckpointState :=
  match fs.mainFile with
  | some (FileData.valid st) => some st
  | _ => none

end Runner

/-! ## Helper lemmas on the front-end embeddings -/

theorem getField_setField_ne (r : JSRecord) (k k' : String) (v : JSValue) (h : k ≠ k') :
    getField (setField r k v) k' = getField r k' := by
  induction r with
  | nil =>
    simp [getField, setField, beq_iff_eq, h]
  | cons p rest ih =>
    by_cases hk : p.1 == k
    · simp only [setField, getField, hk, if_true]
      have : (k == k') = false := by simpa [beq_iff_eq] using h
      simp [getField, this, beq_iff_eq, eq_of_beq hk]
    · simp only [setField, getField, hk, if_false]
      simp [getField, ih]

theorem getField_setField_self (r : JSRecord) (k : String) (v : JSValue) :
    getField (setField r k v) k = v := by
  induction r with
  | nil => simp [getField, setField]
  | cons p rest ih =>
    by_cases hk : p.1 == k
    · simp [setField, getField, hk]
    · simp [setField, getField, hk, ih]

namespace Store

theorem head?_take_cons {α : Type} (n : Nat) (x : α) (l : List α) (h : 0 < n) :
    ((x :: l).take n).head? = some x := by
  cases n with
  | zero => exact absurd h (Nat.lt_irrefl 0)
  | succ m => rfl

theorem addToRecent_length_le (pocId : String) (now : Nat) (recent : List RecentEntry) :
    (addToRecent pocId now recent).length ≤ MAX_RECENT := by
  unfold addToRecent
  dsimp only
  split
  · simp
  · next h => omega

theorem addToRecent_head (pocId : String) (now : Nat) (recent : List RecentEntry) :
    (addToRecent pocId now recent).head? = some (RecentEntry.mk pocId now) := by
  unfold addToRecent
  dsimp only
  split
  · exact head?_take_cons _ _ _ (by simp [MAX_RECENT])
  · rfl

theorem addToRecent_nodup (pocId : String) (now : Nat) (recent : List RecentEntry)
    (h : (recent.map RecentEntry.id).Nodup) :
    ((addToRecent pocId now recent).map RecentEntry.id).Nodup := by
  have hsub : ((recent.filter (fun item => item.id != pocId)).map RecentEntry.id).Sublist
      (recent.map RecentEntry.id) :=
    (List.filter_sublist recent).map RecentEntry.id
  have hf : ((recent.filter (fun item => item.id != pocId)).map RecentEntry.id).Nodup :=
    h.sublist hsub
  have hmem : pocId ∉ (recent.filter (fun item => item.id != pocId)).map RecentEntry.id := by
    intro hm
    rcases List.mem_map.mp hm with ⟨e, he, hid⟩
    have := (List.mem_filter.mp he).2
    simp [hid] at this
  have hcons : ((RecentEntry.mk pocId now ::
      recent.filter (fun item => item.id != pocId)).map RecentEntry.id).Nodup := by
    simpa [List.nodup_cons] using And.intro hmem hf
  unfold addToRecent
  dsimp only
  split
  · rw [List.map_take]
    exact List.Nodup.sublist (List.take_sublist _ _) hcons
  · exact hcons

theorem applyRecent_nodup (calls : List (String × Nat)) (recent : List RecentEntry)
    (h : (recent.map RecentEntry.id).Nodup) :
    ((applyRecent calls recent).map RecentEntry.id).Nodup := by
  induction calls generalizing recent with
  | nil => exact h
  | cons c rest ih => exact ih _ (addToRecent_nodup c.1 c.2 recent h)

theorem applyRecent_append_single (calls : List (String × Nat)) (c : String × Nat)
    (recent : List RecentEntry) :
    applyRecent (calls ++ [c]) recent = addToRecent c.1 c.2 (applyRecent calls recent) := by
  simp [applyRecent, List.foldl_append]

end Store

/-! ## Claims C7, C9, C10 -/

/-! ## Helper lemmas on the runner model -/

namespace Runner

theorem is_done_iff (st : CheckpointState) (id : Identity) :
    is_done st id = true ↔ id ∈ st.completed ∨ ∃ p ∈ st.failed, p.1 = id := by
  simp [is_done, List.any_eq_true]

theorem is_done_mark_success_self (st : CheckpointState) (id : Identity) (n : Nat) :
    is_done (mark_success st id n) id = true := by
  rw [is_done_iff]
  exact .inl (by simp [mark_success])

theorem is_done_mark_failure_self (st : CheckpointState) (id : Identity) (r : String) :
    is_done (mark_permanent_failure st id r) id = true := by
  rw [is_done_iff]
  exact .inr ⟨(id, r), by simp [mark_permanent_failure], rfl⟩

theorem is_done_mark_success_mono (st : CheckpointState) (id id' : Identity) (n : Nat)
    (h : is_done st id' = true) : is_done (mark_success st id n) id' = true := by
  rw [is_done_iff] at h ⊢
  rcases h with h | ⟨p, hp, hid⟩
  · exact .inl (by simp [mark_success, h])
  · exact .inr ⟨p, by simpa [mark_success] using hp, hid⟩

theorem is_done_mark_failure_mono (st : CheckpointState) (id id' : Identity) (r : String)
    (h : is_done st id' = true) : is_done (mark_permanent_failure st id r) id' = true := by
  rw [is_done_iff] at h ⊢
  rcases h with h | ⟨p, hp, hid⟩
  · exact .inl (by simpa [mark_permanent_failure] using h)
  · exact .inr ⟨p, by simp [mark_permanent_failure, hp], hid⟩

theorem is_done_applyOp_mono (st : CheckpointState) (op : CkptOp) (id : Identity)
    (h : is_done st id = true) : is_done (applyOp st op) id = true := by
  cases op with
  | markSuccess i n => exact is_done_mark_success_mono st i id n h
  | markPermanentFailure i r => exact is_done_mark_failure_mono st i id r h

theorem is_done_applyOps_mono (st : CheckpointState) (ops : List CkptOp) (id : Identity)
    (h : is_done st id = true) : is_done (applyOps st ops) id = true := by
  induction ops generalizing st with
  | nil => exact h
  | cons op rest ih => exact ih (applyOp st op) (is_done_applyOp_mono st op id h)

theorem is_done_dispatch_mono (outcome : Identity → RecordResult) (st : CheckpointState)
    (records : List Identity) (id : Identity) (h : is_done st id = true) :
    is_done (dispatch outcome st records).1 id = true := by
  induction records generalizing st with
  | nil => exact h
  | cons r rest ih =>
    by_cases hd : is_done st r
    · rw [dispatch, if_pos hd]
      exact ih st h
    · rw [dispatch, if_neg hd]
      cases ho : outcome r with
      | ok n =>
        exact ih (mark_success st r n) (is_done_mark_success_mono st r id n h)
      | failed reason =>
        exact ih (mark_permanent_failure st r reason) (is_done_mark_failure_mono st r id reason h)

theorem dispatch_all_done (outcome : Identity → RecordResult) (st : CheckpointState)
    (records : List Identity) :
    ∀ id ∈ records, is_done (dispatch outcome st records).1 id = true := by
  induction records generalizing st with
  | nil => intro id h; cases h
  | cons r rest ih =>
    intro id hmem
    by_cases hd : is_done st r
    · rw [dispatch, if_pos hd]
      rcases List.mem_cons.mp hmem with rfl | hmem'
      · exact is_done_dispatch_mono outcome st rest id hd
      · exact ih st id hmem'
    · rw [dispatch, if_neg hd]
      cases ho : outcome r with
      | ok n =>
        rcases List.mem_cons.mp hmem with rfl | hmem'
        · exact is_done_dispatch_mono outcome _ rest id (is_done_mark_success_self st id n)
        · exact ih _ id hmem'
      | failed reason =>
        rcases List.mem_cons.mp hmem with rfl | hmem'
        · exact is_done_dispatch_mono outcome _ rest id (is_done_mark_failure_self st id reason)
        · exact ih _ id hmem'

theorem dispatch_all_skipped (outcome : Identity → RecordResult) (st : CheckpointState)
    (records : List Identity) (h : ∀ id ∈ records, is_done st id = true) :
    dispatch outcome st records = (st, 0) := by
  induction records with
  | nil => rfl
  | cons r rest ih =>
    rw [dispatch, if_pos (h r (List.mem_cons_self r rest))]
    exact ih (fun id hm => h id (List.mem_cons_of_mem r hm))

theorem sched_inflight_bound (W : Nat) (s s' : SchedState) (h : SchedStep W s s')
    (hs : s.inFlight.length ≤ W) : s'.inFlight.length ≤ W := by
  cases h with
  | dispatchPending id rest inFl retry succ dead hlt =>
    simp only [List.length_cons]
    omega
  | redispatchRetry id pend inFl retry succ dead hlt =>
    simp only [List.length_cons]
    omega
  | completeSuccess id pend inFl retry succ dead hmem =>
    have := (List.erase_sublist id inFl).length_le
    simp only at hs ⊢
    omega
  | completeTransient id pend inFl retry succ dead hmem =>
    have := (List.erase_sublist id inFl).length_le
    simp only at hs ⊢
    omega
  | completePermanent id pend inFl retry succ dead hmem =>
    have := (List.erase_sublist id inFl).length_le
    simp only at hs ⊢
    omega

end Runner

/-! ## Claims about the runner model -/

/-- C2: `is_done` is monotonic — once an identity is marked done, it stays
done under every further Checkpoint Store mutation, and a run that loads
the persisted checkpoint file still sees it done. -/
theorem C2_is_done_monotonic (st : Runner.CheckpointState) (ops : List Runner.CkptOp)
    (id : Runner.Identity) (fs : Runner.FS) (h : Runner.is_done st id = true) :
    Runner.is_done (Runner.applyOps st ops) id = true ∧
    ∀ st', Runner.load (Runner.persist (Runner.applyOps st ops) fs) = some st' →
      Runner.is_done st' id = true := by
  refine ⟨Runner.is_done_applyOps_mono st ops id h, fun st' hl => ?_⟩
  have heq : st' = Runner.applyOps st ops := by
    simpa [Runner.load, Runner.persist] using hl.symm
  rw [heq]
  exact Runner.is_done_applyOps_mono st ops id h

/-- C2 (witness): monotonicity evaluated for a state that has completed
`"r1"`, after a further success mark for `"r2"` and a flush/reload. -/
theorem C2_is_done_monotonic_witness :
    Runner.is_done (Runner.CheckpointState.mk 0 3 ["r1"] [] 5) "r1" = true ∧
    (Runner.is_done (Runner.applyOps (Runner.CheckpointState.mk 0 3 ["r1"] [] 5)
        [Runner.CkptOp.markSuccess "r2" 4]) "r1" = true ∧
      ∀ st', Runner.load (Runner.persist (Runner.applyOps
          (Runner.CheckpointState.mk 0 3 ["r1"] [] 5) [Runner.CkptOp.markSuccess "r2" 4])
          (Runner.FS.mk none none)) = some st' →
        Runner.is_done st' "r1" = true) :=
  ⟨by decide, C2_is_done_monotonic (Runner.CheckpointState.mk 0 3 ["r1"] [] 5)
    [Runner.CkptOp.markSuccess "r2" 4] "r1" (Runner.FS.mk none none) (by decide)⟩

/-- C1: after the Batch Scheduler's dispatch loop runs an input to
completion, re-running it with the resulting checkpoint against the same
input dispatches zero records — hence performs zero additional Enrichment
Backend calls — and leaves the checkpoint, and so the Run Report, exactly
unchanged: dispatch only skips identities that are already done. -/
theorem C1_idempotent_resume (outcome : Runner.Identity → Runner.RecordResult)
    (st0 : Runner.CheckpointState) (records : List Runner.Identity) :
    Runner.dispatch outcome (Runner.dispatch outcome st0 records).1 records =
      ((Runner.dispatch outcome st0 records).1, 0) ∧
    Runner.runReport (Runner.dispatch outcome
        (Runner.dispatch outcome st0 records).1 records).1 =
      Runner.runReport (Runner.dispatch outcome st0 records).1 := by
  have hskip := Runner.dispatch_all_skipped outcome (Runner.dispatch outcome st0 records).1
    records (Runner.dispatch_all_done outcome st0 records)
  exact ⟨hskip, by rw [hskip]⟩

/-- C3: for any configured worker bound `W`, every scheduler state
reachable from a state with nothing in flight keeps the number of
concurrently in-flight enrichments — and so the number of outstanding
Enrichment Backend calls — at or below `W`. -/
theorem C3_at_most_W_concurrency (W : Nat) (s0 s : Runner.SchedState)
    (h0 : s0.inFlight = []) (hr : Runner.SchedReachable W s0 s) :
    s.inFlight.length ≤ W := by
  induction hr with
  | refl => simp [h0]
  | tail _ hstep ih => exact Runner.sched_inflight_bound W _ _ hstep ih

/-- C3 (witness): the bound evaluated for `W = 2` after dispatching one
pending record. -/
theorem C3_at_most_W_concurrency_witness :
    (Runner.SchedState.mk ["a"] [] [] [] []).inFlight = [] ∧
    Runner.SchedReachable 2 (Runner.SchedState.mk ["a"] [] [] [] [])
      (Runner.SchedState.mk [] ["a"] [] [] []) ∧
    (Runner.SchedState.mk [] ["a"] [] [] []).inFlight.length ≤ 2 :=
  ⟨rfl,
    Relation.ReflTransGen.single
      (Runner.SchedStep.dispatchPending "a" [] [] [] [] [] (by decide)),
    C3_at_most_W_concurrency 2 (Runner.SchedState.mk ["a"] [] [] [] [])
      (Runner.SchedState.mk [] ["a"] [] [] []) rfl
      (Relation.ReflTransGen.single
        (Runner.SchedStep.dispatchPending "a" [] [] [] [] [] (by decide)))⟩

/-- C4: when two stages both write field `F`, the final merged record
holds the later stage's value exactly when the later stage's confidence is
greater than or equal to the earlier stage's; otherwise the earlier value
and confidence persist and the conflict is recorded in the notes (and a
conflict note appears only in that case). -/
theorem C4_merge_precedence (s1 s2 F v1 v2 : String) (m1 m2 : Runner.StageMeta) :
    Runner.lookupMerged (Runner.mergeStage
        (Runner.mergeStage Runner.emptyAcc (Runner.StagePatch.mk s1 [(F, v1)] m1))
        (Runner.StagePatch.mk s2 [(F, v2)] m2)).fields F =
      some (Runner.MergedField.mk F
        (if m1.confidence.rank ≤ m2.confidence.rank then v2 else v1)
        (if m1.confidence.rank ≤ m2.confidence.rank then m2.confidence else m1.confidence))
    ∧ (Runner.conflictNote s2 F ∈ (Runner.mergeStage
        (Runner.mergeStage Runner.emptyAcc (Runner.StagePatch.mk s1 [(F, v1)] m1))
        (Runner.StagePatch.mk s2 [(F, v2)] m2)).notes ↔
      m2.confidence.rank < m1.confidence.rank) := by
  by_cases hc : m1.confidence.rank ≤ m2.confidence.rank
  · have hnlt : ¬ m2.confidence.rank < m1.confidence.rank := by omega
    simp [Runner.mergeStage, Runner.mergeField, Runner.lookupMerged, Runner.overwriteMerged,
      Runner.emptyAcc, hc, hnlt]
  · have hlt : m2.confidence.rank < m1.confidence.rank := by omega
    simp [Runner.mergeStage, Runner.mergeField, Runner.lookupMerged, Runner.overwriteMerged,
      Runner.emptyAcc, hc, hlt]

namespace Runner

theorem mem_overwriteMerged (fields : List MergedField) (f v : String) (c : Confidence)
    (mf : MergedField) (h : mf ∈ overwriteMerged fields f v c) :
    mf ∈ fields ∨ mf = MergedField.mk f v c := by
  rcases List.mem_map.mp h with ⟨m, hm, heq⟩
  by_cases hname : m.name == f
  · right
    rw [← heq]
    simp [hname]
  · left
    rw [← heq]
    simpa [hname] using hm

theorem mergeField_fields_from (stage : String) (conf : Confidence)
    (st : List MergedField × List String) (fv : String × String) (mf : MergedField)
    (h : mf ∈ (mergeField stage conf st fv).1) :
    mf ∈ st.1 ∨ mf = MergedField.mk fv.1 fv.2 conf := by
  unfold mergeField at h
  cases hl : lookupMerged st.1 fv.1 with
  | none =>
    rw [hl] at h
    dsimp only at h
    rcases List.mem_append.mp h with h' | h'
    · exact .inl h'
    · right
      simpa using h'
  | some old =>
    rw [hl] at h
    dsimp only at h
    split at h
    · exact mem_overwriteMerged st.1 fv.1 fv.2 conf mf h
    · exact .inl h

theorem mergeFold_fields_from (stage : String) (conf : Confidence)
    (fvs : List (String × String)) (st : List MergedField × List String) (mf : MergedField)
    (h : mf ∈ (fvs.foldl (mergeField stage conf) st).1) :
    mf ∈ st.1 ∨ ∃ fv ∈ fvs, mf = MergedField.mk fv.1 fv.2 conf := by
  induction fvs generalizing st with
  | nil => exact .inl h
  | cons fv rest ih =>
    rcases ih (mergeField stage conf st fv) h with h' | ⟨fv', hmem, heq⟩
    · rcases mergeField_fields_from stage conf st fv mf h' with h'' | h''
      · exact .inl h''
      · exact .inr ⟨fv, List.mem_cons_self fv rest, h''⟩
    · exact .inr ⟨fv', List.mem_cons_of_mem fv hmem, heq⟩

theorem mergeStage_fields_from (acc : EnrichAcc) (p : StagePatch) (mf : MergedField)
    (h : mf ∈ (mergeStage acc p).fields) :
    mf ∈ acc.fields ∨ (mf.name, mf.value) ∈ p.fields := by
  unfold mergeStage at h
  dsimp only at h
  rcases mergeFold_fields_from p.stage p.meta.confidence p.fields (acc.fields, acc.notes) mf h
    with h' | ⟨fv, hmem, heq⟩
  · exact .inl h'
  · right
    rw [heq]
    simpa using hmem

theorem mergeStage_okCount (acc : EnrichAcc) (p : StagePatch) :
    (mergeStage acc p).okCount = acc.okCount + 1 := rfl

theorem enrichGo_fields_from (runStage : String → Except StageError StagePatch)
    (stages : List String) (acc acc' : EnrichAcc)
    (h : enrichGo runStage stages acc = .success acc') (mf : MergedField)
    (hmf : mf ∈ acc'.fields) :
    mf ∈ acc.fields ∨
      ∃ s ∈ stages, ∃ p, runStage s = .ok p ∧ (mf.name, mf.value) ∈ p.fields := by
  induction stages generalizing acc with
  | nil =>
    rw [enrichGo] at h
    split at h
    · cases h
      exact .inl hmf
    · cases h
  | cons s rest ih =>
    rw [enrichGo] at h
    cases ho : runStage s with
    | ok patch =>
      rw [ho] at h
      dsimp only at h
      rcases ih (mergeStage acc patch) h with h' | ⟨s', hs', p', hp', hmem⟩
      · rcases mergeStage_fields_from acc patch mf h' with h'' | h''
        · exact .inl h''
        · exact .inr ⟨s, List.mem_cons_self s rest, patch, ho, h''⟩
      · exact .inr ⟨s', List.mem_cons_of_mem s hs', p', hp', hmem⟩
    | error e =>
      rw [ho] at h
      dsimp only at h
      split at h
      · cases h
      · split at h
        · cases h
        · rcases ih (EnrichAcc.mk acc.fields acc.notes acc.metas acc.okCount
              (acc.failed ++ [(s, e)])) h with h' | ⟨s', hs', p', hp', hmem⟩
          · exact .inl h'
          · exact .inr ⟨s', List.mem_cons_of_mem s hs', p', hp', hmem⟩

theorem enrichGo_success_iff (runStage : String → Except StageError StagePatch)
    (stages : List String) (acc : EnrichAcc)
    (hok : ∀ s ∈ stages, runStage s ≠ .error .RateLimited ∧ runStage s ≠ .error .Timeout ∧
      runStage s ≠ .error .AuthOrConfigError) :
    (∃ acc', enrichGo runStage stages acc = .success acc') ↔
      (0 < acc.okCount ∨ ∃ s ∈ stages, ∃ p, runStage s = .ok p) := by
  induction stages generalizing acc with
  | nil =>
    rw [enrichGo]
    split
    · next h0 => simp [Nat.pos_of_ne_zero, h0]
    · next h0 => simp [h0]
  | cons s rest ih =>
    have hok' : ∀ s' ∈ rest, runStage s' ≠ .error .RateLimited ∧
        runStage s' ≠ .error .Timeout ∧ runStage s' ≠ .error .AuthOrConfigError :=
      fun s' hm => hok s' (List.mem_cons_of_mem s hm)
    have hs := hok s (List.mem_cons_self s rest)
    rw [enrichGo]
    cases ho : runStage s with
    | ok patch =>
      dsimp only
      rw [ih (mergeStage acc patch) hok']
      constructor
      · intro _
        exact .inr ⟨s, List.mem_cons_self s rest, patch, ho⟩
      · intro _
        left
        rw [mergeStage_okCount]
        omega
    | error e =>
      cases e with
      | RateLimited => exact absurd ho hs.1
      | Timeout => exact absurd ho hs.2.1
      | AuthOrConfigError => exact absurd ho hs.2.2
      | InvalidResponse =>
        dsimp only [StageError.isTransient]
        rw [if_neg (by simp), if_neg (by simp)]
        rw [ih (EnrichAcc.mk acc.fields acc.notes acc.metas acc.okCount
          (acc.failed ++ [(s, StageError.InvalidResponse)])) hok']
        dsimp only
        constructor
        · rintro (h0 | ⟨s', hs', hp⟩)
          · exact .inl h0
          · exact .inr ⟨s', List.mem_cons_of_mem s hs', hp⟩
        · rintro (h0 | ⟨s', hs', p, hp⟩)
          · exact .inl h0
          · rcases List.mem_cons.mp hs' with rfl | hs''
            · rw [ho] at hp
              cases hp
            · exact .inr ⟨s', hs'', p, hp⟩

theorem enrichGo_okCount_pos_ne_failed (runStage : String → Except StageError StagePatch)
    (stages : List String) (acc : EnrichAcc) (errs : List (String × StageError))
    (hpos : 0 < acc.okCount) :
    enrichGo runStage stages acc ≠ .allStagesFailed errs := by
  induction stages generalizing acc with
  | nil =>
    rw [enrichGo]
    rw [if_pos (by omega)]
    simp
  | cons s rest ih =>
    rw [enrichGo]
    cases ho : runStage s with
    | ok patch =>
      dsimp only
      exact ih (mergeStage acc patch) (by rw [mergeStage_okCount]; omega)
    | error e =>
      cases e with
      | RateLimited => simp [StageError.isTransient]
      | Timeout => simp [StageError.isTransient]
      | AuthOrConfigError => simp [StageError.isTransient]
      | InvalidResponse =>
        dsimp only [StageError.isTransient]
        rw [if_neg (by simp), if_neg (by simp)]
        exact ih (EnrichAcc.mk acc.fields acc.notes acc.metas acc.okCount
          (acc.failed ++ [(s, StageError.InvalidResponse)])) hpos

theorem enrichGo_failed_no_ok (runStage : String → Except StageError StagePatch)
    (stages : List String) (acc : EnrichAcc) (errs : List (String × StageError))
    (h : enrichGo runStage stages acc = .allStagesFailed errs) :
    ∀ s ∈ stages, ∀ p, runStage s ≠ .ok p := by
  induction stages generalizing acc errs with
  | nil =>
    intro s hs
    cases hs
  | cons s rest ih =>
    rw [enrichGo] at h
    intro s' hs' p hp
    cases ho : runStage s with
    | ok patch =>
      rw [ho] at h
      dsimp only at h
      exact enrichGo_okCount_pos_ne_failed runStage rest (mergeStage acc patch) errs
        (by rw [mergeStage_okCount]; omega) h
    | error e =>
      rw [ho] at h
      dsimp only at h
      rcases List.mem_cons.mp hs' with rfl | hs''
      · rw [ho] at hp
        cases hp
      · split at h
        · cases h
        · split at h
          · cases h
          · exact ih (EnrichAcc.mk acc.fields acc.notes acc.metas acc.okCount
              (acc.failed ++ [(s, e)])) errs h s' hs'' p hp

/-- Decidable equality of backend results, for evaluating concrete
instances of the enricher. -/
instance : DecidableEq (Except StageError StagePatch) := fun a b =>
  match a, b with
  | .ok p1, .ok p2 =>
    if h : p1 = p2 then isTrue (by rw [h]) else isFalse (by intro hc; cases hc; exact h rfl)
  | .error e1, .error e2 =>
    if h : e1 = e2 then isTrue (by rw [h]) else isFalse (by intro hc; cases hc; exact h rfl)
  | .ok _, .error _ => isFalse (by intro hc; cases hc)
  | .error _, .ok _ => isFalse (by intro hc; cases hc)

/-- A sample StagePatch for the "poc" stage, used to evaluate the
partial-stage-resilience theorem on a concrete input. -/
def pocPatch : StagePatch :=
  StagePatch.mk "poc" [("poc.role", "partner")]
    (StageMeta.mk Confidence.high ["poc.role"] [] Quality.good "")

/-- A sample Stage Executor where stage "poc" succeeds and every other
stage (such as "fund") fails with InvalidResponse. -/
def sampleRunStage : String → Except StageError StagePatch :=
  fun s => if s == "poc" then .ok pocPatch else .error .InvalidResponse

end Runner

/-- C5: against any Stage Executor that produces no transient error and no
AuthOrConfigError on the requested stages, a record's enrichment succeeds
iff at least one stage succeeds (a PermanentFailure of one stage does not
abort the remaining stages); every field of the successful result comes
from a stage that succeeded; and when enrichment fails entirely with the
all-stages-failed outcome, no requested stage had succeeded. -/
theorem C5_partial_stage_resilience (runStage : String → Except Runner.StageError Runner.StagePatch)
    (stages : List String)
    (hok : ∀ s ∈ stages, runStage s ≠ .error .RateLimited ∧ runStage s ≠ .error .Timeout ∧
      runStage s ≠ .error .AuthOrConfigError) :
    ((∃ s ∈ stages, ∃ p, runStage s = .ok p) ↔
      ∃ acc, Runner.enrich runStage stages = .success acc)
    ∧ (∀ acc, Runner.enrich runStage stages = .success acc →
        ∀ mf ∈ acc.fields, ∃ s ∈ stages, ∃ p, runStage s = .ok p ∧
          (mf.name, mf.value) ∈ p.fields)
    ∧ (∀ errs, Runner.enrich runStage stages = .allStagesFailed errs →
        ∀ s ∈ stages, ∀ p, runStage s ≠ .ok p) := by
  refine ⟨?_, ?_, ?_⟩
  · rw [Runner.enrich, Runner.enrichGo_success_iff runStage stages Runner.emptyAcc hok]
    simp [Runner.emptyAcc]
  · intro acc h mf hmf
    rcases Runner.enrichGo_fields_from runStage stages Runner.emptyAcc acc h mf hmf with h' | h'
    · simp [Runner.emptyAcc] at h'
    · exact h'
  · intro errs h
    exact Runner.enrichGo_failed_no_ok runStage stages Runner.emptyAcc errs h

/-- C5 (witness): with stage "poc" succeeding and stage "fund" failing
with InvalidResponse, the record's outcome is Success. -/
theorem C5_partial_stage_resilience_witness :
    (∀ s ∈ (["poc", "fund"] : List String),
      Runner.sampleRunStage s ≠ .error .RateLimited ∧
      Runner.sampleRunStage s ≠ .error .Timeout ∧
      Runner.sampleRunStage s ≠ .error .AuthOrConfigError) ∧
    ∃ acc, Runner.enrich Runner.sampleRunStage ["poc", "fund"] = .success acc :=
  ⟨by decide,
    ((C5_partial_stage_resilience Runner.sampleRunStage ["poc", "fund"] (by decide)).1).mp
      ⟨"poc", by decide, Runner.pocPatch, by decide⟩⟩

/-- C6: while `persist` runs — including a crash at any intermediate point
— the checkpoint file always holds a complete valid serialization, equal
either to the previously flushed state or to the newly persisted one, and
any state recovered from it still reports every previously completed
identity as done (no completed record is re-marked pending); when
`persist` completes, `load` returns exactly the persisted state. -/
theorem C6_persist_crash_safety (old : Runner.CheckpointState) (ops : List Runner.CkptOp)
    (fs : Runner.FS) (hmain : fs.mainFile = some (Runner.FileData.valid old)) :
    (∀ fs' ∈ Runner.persistCrashStates (Runner.applyOps old ops) fs,
      ∃ st', fs'.mainFile = some (Runner.FileData.valid st') ∧
        (st' = old ∨ st' = Runner.applyOps old ops) ∧
        ∀ id, Runner.is_done old id = true → Runner.is_done st' id = true)
    ∧ Runner.load (Runner.persist (Runner.applyOps old ops) fs) =
        some (Runner.applyOps old ops) := by
  constructor
  · intro fs' hfs'
    simp only [Runner.persistCrashStates, List.mem_cons, List.not_mem_nil, or_false] at hfs'
    rcases hfs' with rfl | rfl | rfl | rfl
    · exact ⟨old, hmain, .inl rfl, fun id h => h⟩
    · exact ⟨old, hmain, .inl rfl, fun id h => h⟩
    · exact ⟨old, hmain, .inl rfl, fun id h => h⟩
    · exact ⟨Runner.applyOps old ops, rfl, .inr rfl,
        fun id h => Runner.is_done_applyOps_mono old ops id h⟩
  · rfl

/-- C6 (witness): crash safety evaluated for a concrete persisted state and
one further success mark. -/
theorem C6_persist_crash_safety_witness :
    (Runner.FS.mk none (some (Runner.FileData.valid
        (Runner.CheckpointState.mk 0 2 ["r1"] [] 3)))).mainFile =
      some (Runner.FileData.valid (Runner.CheckpointState.mk 0 2 ["r1"] [] 3)) ∧
    ((∀ fs' ∈ Runner.persistCrashStates
        (Runner.applyOps (Runner.CheckpointState.mk 0 2 ["r1"] [] 3)
          [Runner.CkptOp.markSuccess "r2" 1])
        (Runner.FS.mk none (some (Runner.FileData.valid
          (Runner.CheckpointState.mk 0 2 ["r1"] [] 3)))),
      ∃ st', fs'.mainFile = some (Runner.FileData.valid st') ∧
        (st' = Runner.CheckpointState.mk 0 2 ["r1"] [] 3 ∨
          st' = Runner.applyOps (Runner.CheckpointState.mk 0 2 ["r1"] [] 3)
            [Runner.CkptOp.markSuccess "r2" 1]) ∧
        ∀ id, Runner.is_done (Runner.CheckpointState.mk 0 2 ["r1"] [] 3) id = true →
          Runner.is_done st' id = true)
    ∧ Runner.load (Runner.persist
        (Runner.applyOps (Runner.CheckpointState.mk 0 2 ["r1"] [] 3)
          [Runner.CkptOp.markSuccess "r2" 1])
        (Runner.FS.mk none (some (Runner.FileData.valid
          (Runner.CheckpointState.mk 0 2 ["r1"] [] 3))))) =
      some (Runner.applyOps (Runner.CheckpointState.mk 0 2 ["r1"] [] 3)
        [Runner.CkptOp.markSuccess "r2" 1])) :=
  ⟨rfl, C6_persist_crash_safety (Runner.CheckpointState.mk 0 2 ["r1"] [] 3)
    [Runner.CkptOp.markSuccess "r2" 1]
    (Runner.FS.mk none (some (Runner.FileData.valid
      (Runner.CheckpointState.mk 0 2 ["r1"] [] 3)))) rfl⟩

/-- C9 (counterexample): the claim quantifies over any stored recent list,
but a stored list that already contains two entries with the same id keeps
the duplicate across a `Store.addToRecent` call for a different id, so the
persisted list can hold two entries sharing an id. -/
theorem C9_counterexample :
    ¬ ((Store.applyRecent [("b", 2)]
        [Store.RecentEntry.mk "a" 0, Store.RecentEntry.mk "a" 1]).map
          Store.RecentEntry.id).Nodup := by
  decide

/-- C9 (amended): after any non-empty sequence of `Store.addToRecent` calls
starting from a stored recent list whose entries have pairwise-distinct ids
(as every list the store itself produces does), the resulting list has at
most `MAX_RECENT = 50` entries, no two entries share an id, and the first
entry carries the id passed to the most recent call. -/
theorem C9_recent_invariant (init : List Store.RecentEntry) (calls : List (String × Nat))
    (c : String × Nat) (hinit : (init.map Store.RecentEntry.id).Nodup) :
    (Store.applyRecent (calls ++ [c]) init).length ≤ Store.MAX_RECENT ∧
    ((Store.applyRecent (calls ++ [c]) init).map Store.RecentEntry.id).Nodup ∧
    (Store.applyRecent (calls ++ [c]) init).head?.map Store.RecentEntry.id = some c.1 := by
  rw [Store.applyRecent_append_single]
  refine ⟨Store.addToRecent_length_le _ _ _, ?_, ?_⟩
  · exact Store.addToRecent_nodup _ _ _ (Store.applyRecent_nodup calls init hinit)
  · rw [Store.addToRecent_head]
    rfl

/-- C9 (witness): the amended invariant evaluated for a single call on the
empty stored list. -/
theorem C9_recent_invariant_witness :
    ((([] : List Store.RecentEntry)).map Store.RecentEntry.id).Nodup ∧
    ((Store.applyRecent ([] ++ [("a", 5)]) []).length ≤ Store.MAX_RECENT ∧
      ((Store.applyRecent ([] ++ [("a", 5)]) []).map Store.RecentEntry.id).Nodup ∧
      (Store.applyRecent ([] ++ [("a", 5)]) []).head?.map Store.RecentEntry.id = some "a") :=
  ⟨by simp, C9_recent_invariant [] [] ("a", 5) (by simp)⟩

/-- C10 (counterexample): the claim quantifies over any stored starred
list, but on a stored list holding the id twice `Store.toggleStarred`
returns `false` (the splice branch) while the id is still a member of the
updated list, so "returns true iff member afterwards" fails. -/
theorem C10_counterexample :
    ¬ (((Store.toggleStarred "a" ["a", "a"]).1 = true) ↔
      "a" ∈ (Store.toggleStarred "a" ["a", "a"]).2) := by
  decide

/-- C10 (amended): on a stored starred list without duplicate ids (as every
list the store itself produces), `Store.toggleStarred id` returns `true`
iff `id` is a member of the updated list, and toggling the same id twice
restores the membership of `id` to what it was before the pair of calls. -/
theorem C10_toggleStarred_membership (pocId : String) (starred : List String)
    (h : starred.Nodup) :
    ((Store.toggleStarred pocId starred).1 = true ↔
      pocId ∈ (Store.toggleStarred pocId starred).2)
    ∧ (pocId ∈ (Store.toggleStarred pocId (Store.toggleStarred pocId starred).2).2 ↔
      pocId ∈ starred) := by
  by_cases hm : pocId ∈ starred
  · have hne : pocId ∉ starred.erase pocId := h.not_mem_erase
    constructor
    · simp [Store.toggleStarred, hm, hne]
    · simp [Store.toggleStarred, hm, hne]
  · constructor
    · simp [Store.toggleStarred, hm]
    · have hmem2 : pocId ∈ starred ++ [pocId] := by simp
      simp [Store.toggleStarred, hm, hmem2, List.erase_append_right _ hm]

/-- C10 (witness): the amended property evaluated on the stored list
`["b"]`. -/
theorem C10_toggleStarred_membership_witness :
    (["b"] : List String).Nodup ∧
    (((Store.toggleStarred "a" ["b"]).1 = true ↔
        "a" ∈ (Store.toggleStarred "a" ["b"]).2)
      ∧ ("a" ∈ (Store.toggleStarred "a" (Store.toggleStarred "a" ["b"]).2).2 ↔
        "a" ∈ (["b"] : List String))) :=
  ⟨by decide, C10_toggleStarred_membership "a" ["b"] (by decide)⟩

/-- C7 (counterexample): the identity `Store.addRecord` assigns is not a
pure function of the record's field values — the same record (here the
record with no fields) receives different `poc.id` identities under two
different `Math.random()` draws. -/
theorem C7_counterexample :
    getField (Store.addRecord [] "0.abcdefgh" "0.rr" 0) "poc.id" ≠
      getField (Store.addRecord [] "0.qrstuvwx" "0.rr" 0) "poc.id" := by
  decide

/-- C7 (amended): the identity `Store.addRecord` uses for bookkeeping is
deterministic only given the random draws: a record that already carries a
truthy `poc.id` keeps it unchanged (so such identities are stable across
runs), while a record without one is assigned `"u_"` plus eight characters
of the `Math.random()` draw, which depends on the random stream rather than
on the record's field values. -/
theorem C7_addRecord_identity (record : JSRecord) (rand1 rand2 : String) (now : Nat) :
    (falsy (getField record "poc.id") = false →
      getField (Store.addRecord record rand1 rand2 now) "poc.id" = getField record "poc.id")
    ∧ (falsy (getField record "poc.id") = true →
      getField (Store.addRecord record rand1 rand2 now) "poc.id" =
        some (String.append "u_" (generateId rand1))) := by
  unfold Store.addRecord
  dsimp only
  constructor
  · intro h
    simp only [h]
    rw [getField_setField_ne _ _ _ _ (by decide), getField_setField_ne _ _ _ _ (by decide)]
    simp only [Bool.false_eq_true, if_false]
    split
    · rw [getField_setField_ne _ _ _ _ (by decide)]
    · rfl
  · intro h
    simp only [h, if_true]
    rw [getField_setField_ne _ _ _ _ (by decide), getField_setField_ne _ _ _ _ (by decide)]
    split
    · rw [getField_setField_ne _ _ _ _ (by decide), getField_setField_self]
    · rw [getField_setField_self]

/-- The code's cell conversion coincides with the claim's description of
cell quoting. -/
theorem specQuoteCell_eq_escapeValue : specQuoteCell = CSV.escapeValue := by
  funext v
  cases v with
  | none => rfl
  | some s => rfl

/-- C8: for every non-empty record list and chosen column list,
`CSV.toCSV` produces exactly the header row followed by one quoted row per
record in input order (`specToCSV`), and an empty or missing record list
yields the empty string. -/
theorem C8_toCSV_structure (records : List JSRecord) (cols : List String)
    (fieldsArg : Option (List String)) (h : records ≠ []) :
    CSV.toCSV (some records) (some cols) = specToCSV records cols
    ∧ CSV.toCSV none fieldsArg = "" ∧ CSV.toCSV (some []) fieldsArg = "" := by
  refine ⟨?_, rfl, rfl⟩
  match records with
  | [] => exact absurd rfl h
  | first :: rest =>
    rfl

/-- C8 (witness): the structure equality evaluated on two one-field
records (one of them with a null value) and columns `["a", "b"]`. -/
theorem C8_toCSV_structure_witness :
    ([[("a", some "1")], [("a", none)]] : List JSRecord) ≠ [] ∧
    CSV.toCSV (some [[("a", some "1")], [("a", none)]]) (some ["a", "b"]) =
      specToCSV [[("a", some "1")], [("a", none)]] ["a", "b"] :=
  ⟨by decide, (C8_toCSV_structure [[("a", some "1")], [("a", none)]] ["a", "b"] none (by decide)).1⟩

/-- C7 (witness): the amended property evaluated for a record that already
carries `poc.id = "p9"`: the identity is preserved. -/
theorem C7_addRecord_identity_witness :
    falsy (getField [("poc.id", some "p9")] "poc.id") = false ∧
    getField (Store.addRecord [("poc.id", some "p9")] "0.abcdefgh" "0.rr" 7) "poc.id" =
      getField [("poc.id", some "p9")] "poc.id" :=
  ⟨by decide, (C7_addRecord_identity [("poc.id", some "p9")] "0.abcdefgh" "0.rr" 7).1 (by decide)⟩

end Klar
